import Mathlib

/-!
Verification of the marker-delimited config block manager and
atomic-persistence layer of the `gitws` repository.

The Go sources are shallowly embedded: Go strings become `List Char`,
`strings.Index` becomes `strIndex`, Go string slicing `s[lo:hi]` becomes
`List.take`/`List.drop` where the bounds provably hold, and an explicit
bounds-checked `goSlice` (returning `none` to model a runtime panic)
where they do not.  Filesystem state is a finite map from path to
optional byte content, with I/O-failure injection where the claims need
it.
-/

namespace Gitws

/-- The character content of a Go string. -/
abbrev Str := List Char

/-- Auxiliary scan for `strIndex`: `i` is the number of characters
already dropped from the original string. -/
def strIndexAux (pat : Str) : Str → Nat → Option Nat
  | s, i =>
    if pat.isPrefixOf s then some i
    else
      match s with
      | [] => none
      | _ :: t => strIndexAux pat t (i + 1)

/-- Embeds Go `strings.Index(s, pat)`: the index of the first occurrence
of `pat` in `s`, or `none` where Go returns `-1`.  (`strings.Index`
returns `0` on an empty `pat`, matched by `isPrefixOf` succeeding
immediately.) -/
def strIndex (s pat : Str) : Option Nat := strIndexAux pat s 0

/-- Go string slicing `s[lo:hi]`: panics (modelled as `none`) unless
`lo ≤ hi ≤ len(s)`. -/
def goSlice (s : Str) (lo hi : Nat) : Option Str :=
  if lo ≤ hi ∧ hi ≤ s.length then some ((s.take hi).drop lo) else none

/-- Whitespace as recognised by Go `unicode.IsSpace` on the Latin-1
range: `'\t'`, `'\n'`, `'\v'`, `'\f'`, `'\r'`, `' '`, U+0085, U+00A0.
(Code points above Latin-1 with the Unicode space property never occur
in the inputs treated here.) -/
def isGoSpace (c : Char) : Bool :=
  c.val == 32 || (9 ≤ c.val && c.val ≤ 13) || c.val == 0x85 || c.val == 0xA0

/-- Embeds Go `strings.TrimSpace`: removes leading and trailing
whitespace. -/
def trimSpace (s : Str) : Str :=
  ((s.dropWhile isGoSpace).reverse.dropWhile isGoSpace).reverse

/-- Embeds `fsutil.ReplaceBetweenMarkers` (part_000 lines 69-93), the
Upsert operation of the Marker Block Editor.  Both `content[:startIdx]`
and `content[endIdx:]` are within bounds whenever the markers are found
(see `strIndex_bound`), so `take`/`drop` coincide with Go slicing. -/
def ReplaceBetweenMarkers (content startMarker endMarker newContent : Str) :
    Str × Bool :=
  match strIndex content startMarker with
  | none =>
    -- Markers not found, append new content
    if content = [] then (newContent, true)
    else (content ++ '\n' :: newContent, true)
  | some startIdx =>
    match strIndex (content.drop startIdx) endMarker with
    | none =>
      -- Start marker found but no end marker, append
      (content ++ '\n' :: newContent, true)
    | some endRel =>
      let endIdx := endRel + startIdx + endMarker.length
      let before := content.take startIdx
      let after := content.drop endIdx
      (before ++ newContent ++ '\n' :: after, true)

/-- Embeds `fsutil.ExtractBetweenMarkers` (part_000 lines 96-115).  The
source updates `startIdx` by `len(startMarker)` *before* adding it to
the relative end index, and then slices `content[startIdx:endIdx]`; that
slice can exceed the bounds of `content`, which in Go panics — modelled
by `goSlice` returning `none`. -/
def ExtractBetweenMarkers (content startMarker endMarker : Str) :
    Option (Str × Bool) :=
  match strIndex content startMarker with
  | none => some ([], false)
  | some startIdx0 =>
    match strIndex (content.drop startIdx0) endMarker with
    | none => some ([], false)
    | some endRel =>
      let startIdx := startIdx0 + startMarker.length
      let endIdx := endRel + startIdx
      match goSlice content startIdx endIdx with
      | none => none
      | some extracted => some (trimSpace extracted, true)

/-- Embeds the string core of `ssh.RemoveSSHConfigBlock` (ssh.go lines
153-168): the transformation from the file's old content to the new
content, with the early `return nil` branches (marker absent) leaving
the content unchanged. -/
def removeBetweenMarkers (content startMarker endMarker : Str) : Str :=
  match strIndex content startMarker with
  | none => content
  | some startIdx =>
    match strIndex (content.drop startIdx) endMarker with
    | none => content
    | some endRel =>
      let endIdx := endRel + startIdx + endMarker.length
      let before := content.take startIdx
      let after := content.drop endIdx
      before ++ after

/-- Embeds `workspace.StartMarker` (part_001 lines 104-106). -/
def StartMarker (w : Str) : Str :=
  "# >>> gws ".data ++ w ++ " >>> DO NOT EDIT".data

/-- Embeds `workspace.EndMarker` (part_001 lines 109-111). -/
def EndMarker (w : Str) : Str :=
  "# <<< gws ".data ++ w ++ " <<<".data

/-- Embeds `workspace.IncludeIfStartMarker` (part_001 lines 114-116). -/
def IncludeIfStartMarker : Str := "# >>> gws includeIf >>> DO NOT EDIT".data

/-- Embeds `workspace.IncludeIfEndMarker` (part_001 lines 119-121). -/
def IncludeIfEndMarker : Str := "# <<< gws includeIf <<<".data

/-- `true` when `pat` occurs as a contiguous substring of `s` (the
notion of occurrence used by `strings.Index`/`strings.Contains`). -/
def containsSub (s pat : Str) : Bool := (strIndex s pat).isSome

/-! ### Properties of `strIndex` -/

/-- A successful `strIndexAux` scan returns an index at least the
accumulator, and the pattern fits inside the scanned suffix. -/
theorem strIndexAux_bound (pat : Str) (s : Str) :
    ∀ (i j : Nat), strIndexAux pat s i = some j →
      i ≤ j ∧ (j - i) + pat.length ≤ s.length := by
  induction s with
  | nil =>
    intro i j h
    unfold strIndexAux at h
    by_cases hp : pat.isPrefixOf ([] : Str)
    · rw [if_pos hp] at h
      cases h
      have hlen := (List.isPrefixOf_iff_prefix.1 hp).length_le
      simp at hlen
      simp [hlen]
    · rw [if_neg hp] at h
      cases h
  | cons a t ih =>
    intro i j h
    unfold strIndexAux at h
    by_cases hp : pat.isPrefixOf (a :: t)
    · rw [if_pos hp] at h
      cases h
      have hlen := (List.isPrefixOf_iff_prefix.1 hp).length_le
      simp only [List.length_cons] at *
      omega
    · rw [if_neg hp] at h
      rcases ih (i + 1) j h with ⟨h1, h2⟩
      simp only [List.length_cons]
      omega

/-- Where `strings.Index` finds the pattern, the pattern lies entirely
within the string; hence every slice the editor operations take with
these indices is in bounds, and `List.take`/`List.drop` coincide with Go
slicing there. -/
theorem strIndex_bound (s pat : Str) (j : Nat) (h : strIndex s pat = some j) :
    j + pat.length ≤ s.length := by
  have hb := strIndexAux_bound pat s 0 j h
  omega

/-- A pattern that starts the string is found at index `0`. -/
theorem strIndex_of_isPrefixOf (s pat : Str) (h : pat.isPrefixOf s) :
    strIndex s pat = some 0 := by
  unfold strIndex strIndexAux
  rw [if_pos h]

/-- A nonempty pattern does not occur in the empty string. -/
theorem strIndex_nil (pat : Str) (h : pat ≠ []) : strIndex [] pat = none := by
  have hp : pat.isPrefixOf ([] : Str) = false := by
    cases pat with
    | nil => exact absurd rfl h
    | cons a t => rfl
  unfold strIndex strIndexAux
  simp [hp]

/-! ### Claim theorems about the Marker Block Editor -/

/-- Claim C10: for every input, the boolean `changed` result of
`ReplaceBetweenMarkers` equals `true` — in every branch, including the
corrupted-marker fallback and the case where the output equals the
input — so the caller receives no signal distinguishing the cases. -/
theorem upsert_changed_flag_always_true (content s e n : Str) :
    (ReplaceBetweenMarkers content s e n).2 = true := by
  unfold ReplaceBetweenMarkers
  split
  · split <;> rfl
  · split <;> rfl

/-- Claim C7: when the start marker does not occur, Upsert returns the
new block alone on empty content and `content ++ "\n" ++ newBlock`
otherwise, always reporting a change; when the start marker occurs but
the end marker does not occur at or after it, Upsert appends
`"\n" ++ newBlock` after the untouched content. -/
theorem upsert_append_fallback_branches (content s e n : Str) :
    (strIndex content s = none →
      ReplaceBetweenMarkers content s e n
        = (if content = [] then n else content ++ '\n' :: n, true))
    ∧ (∀ i, strIndex content s = some i →
        strIndex (content.drop i) e = none →
        ReplaceBetweenMarkers content s e n = (content ++ '\n' :: n, true)) := by
  constructor
  · intro h
    simp only [ReplaceBetweenMarkers, h]
    split <;> rfl
  · intro i h1 h2
    simp only [ReplaceBetweenMarkers, h1, h2]

/-- Witness for C7 at concrete inputs: content without the start
marker, and content with an orphaned start marker. -/
theorem upsert_append_fallback_branches_witness :
    ReplaceBetweenMarkers "x".data "S".data "E".data "N".data
      = ("x".data ++ '\n' :: "N".data, true)
    ∧ ReplaceBetweenMarkers "Sx".data "S".data "E".data "N".data
      = ("Sx".data ++ '\n' :: "N".data, true) := by
  constructor
  · have h :=
      (upsert_append_fallback_branches "x".data "S".data "E".data "N".data).1
        (by decide)
    rw [h]
    decide
  · exact (upsert_append_fallback_branches "Sx".data "S".data "E".data
      "N".data).2 0 (by decide) (by decide)

/-- Counterexample to claim C2 as stated: with content `""`, markers
`"S"`/`"E"` and block `"B"`, the first Upsert returns `"B"` and the
second returns `"B\nB"`, so Upsert applied twice with identical
arguments is not the same as applying it once. -/
theorem upsert_idempotence_counterexample :
    (ReplaceBetweenMarkers
        ((ReplaceBetweenMarkers [] "S".data "E".data "B".data).1)
        "S".data "E".data "B".data).1
      ≠ (ReplaceBetweenMarkers [] "S".data "E".data "B".data).1 := by
  decide

/-- Claim C2 amended: Upsert is not idempotent on its content result;
for a well-formed block `s ++ m ++ e` (end marker first occurring at
its end) installed into empty content, re-running Upsert with identical
arguments appends exactly one newline to the previous result instead of
leaving it unchanged. -/
theorem upsert_rerun_appends_newline (s m e : Str) (hs : s ≠ [])
    (he : strIndex (s ++ m ++ e) e = some (s.length + m.length)) :
    ReplaceBetweenMarkers ((ReplaceBetweenMarkers [] s e (s ++ m ++ e)).1)
        s e (s ++ m ++ e)
      = ((s ++ m ++ e) ++ ['\n'], true)
    ∧ (s ++ m ++ e) ++ ['\n'] ≠ s ++ m ++ e := by
  have h0 : strIndex [] s = none := strIndex_nil s hs
  have hfirst : (ReplaceBetweenMarkers [] s e (s ++ m ++ e)).1 = s ++ m ++ e := by
    simp [ReplaceBetweenMarkers, h0]
  have hpre : s.isPrefixOf (s ++ (m ++ e)) := by
    exact List.isPrefixOf_iff_prefix.2 (List.prefix_append s (m ++ e))
  have hstart : strIndex (s ++ m ++ e) s = some 0 := by
    have := strIndex_of_isPrefixOf (s ++ (m ++ e)) s hpre
    simpa [List.append_assoc] using this
  have hlen : s.length + m.length + 0 + e.length = (s ++ m ++ e).length := by
    simp [List.length_append]
    omega
  constructor
  · rw [hfirst]
    simp only [ReplaceBetweenMarkers, hstart, List.drop_zero, he]
    rw [List.take_zero, hlen, List.drop_length]
    simp
  · intro h
    have := congrArg List.length h
    simp [List.length_append] at this

/-- Witness for C2 amended at concrete marker and block strings. -/
theorem upsert_rerun_appends_newline_witness :
    ReplaceBetweenMarkers
        ((ReplaceBetweenMarkers [] "S".data "E".data
          ("S".data ++ "M".data ++ "E".data)).1)
        "S".data "E".data ("S".data ++ "M".data ++ "E".data)
      = (("S".data ++ "M".data ++ "E".data) ++ ['\n'], true)
    ∧ ("S".data ++ "M".data ++ "E".data) ++ ['\n']
        ≠ "S".data ++ "M".data ++ "E".data :=
  upsert_rerun_appends_newline "S".data "M".data "E".data (by decide) (by decide)

/-- Counterexample to claim C5 as stated: with `A = ""`, `s = "S"`,
`OLD = "E"`, `e = "E"`, `B = "b"`, the parts `A` and `B` contain
neither marker, yet the replacement result is not
`A ++ NEW ++ "\n" ++ B`, because `OLD` contains the end marker and the
leftmost end-marker search stops inside `OLD`. -/
theorem upsert_scoping_counterexample :
    ("SEEb".data
        = "".data ++ "S".data ++ "E".data ++ "E".data ++ "b".data)
    ∧ containsSub "".data "S".data = false
    ∧ containsSub "".data "E".data = false
    ∧ containsSub "b".data "S".data = false
    ∧ containsSub "b".data "E".data = false
    ∧ (ReplaceBetweenMarkers "SEEb".data "S".data "E".data "N".data).1
        ≠ "".data ++ "N".data ++ "\n".data ++ "b".data := by
  decide

/-- Claim C5 amended: replacement scoping holds under first-occurrence
hypotheses — when the first occurrence of the start marker in
`A ++ s ++ OLD ++ e ++ B` is at position `len(A)` and the first
occurrence of the end marker at or after it is at the end marker
itself (so `OLD` hides no earlier end marker and no occurrence
straddles the seams), the result is exactly
`A ++ NEW ++ "\n" ++ B` with `A` and `B` preserved verbatim. -/
theorem upsert_replacement_scoping (A s OLD e B NEW : Str)
    (h1 : strIndex (A ++ s ++ OLD ++ e ++ B) s = some A.length)
    (h2 : strIndex (s ++ OLD ++ e ++ B) e = some (s.length + OLD.length)) :
    ReplaceBetweenMarkers (A ++ s ++ OLD ++ e ++ B) s e NEW
      = (A ++ NEW ++ '\n' :: B, true) := by
  have hc : A ++ s ++ OLD ++ e ++ B = A ++ (s ++ OLD ++ e ++ B) := by
    simp [List.append_assoc]
  have hdropA : (A ++ s ++ OLD ++ e ++ B).drop A.length = s ++ OLD ++ e ++ B := by
    rw [hc]; exact List.drop_left A (s ++ OLD ++ e ++ B)
  have htakeA : (A ++ s ++ OLD ++ e ++ B).take A.length = A := by
    rw [hc]; exact List.take_left A (s ++ OLD ++ e ++ B)
  have hsplit : A ++ s ++ OLD ++ e ++ B = (A ++ s ++ OLD ++ e) ++ B := by
    simp [List.append_assoc]
  have hlen : (A ++ s ++ OLD ++ e).length
      = s.length + OLD.length + A.length + e.length := by
    simp [List.length_append]; omega
  have hdropEnd :
      (A ++ s ++ OLD ++ e ++ B).drop
        (s.length + OLD.length + A.length + e.length) = B := by
    rw [hsplit]; exact List.drop_left' hlen
  simp only [ReplaceBetweenMarkers, h1, hdropA, h2]
  rw [htakeA, hdropEnd]

/-- Witness for C5 amended at concrete strings. -/
theorem upsert_replacement_scoping_witness :
    ReplaceBetweenMarkers
        ("A".data ++ "<S>".data ++ "old".data ++ "<E>".data ++ "B".data)
        "<S>".data "<E>".data "new".data
      = ("A".data ++ "new".data ++ '\n' :: "B".data, true) :=
  upsert_replacement_scoping "A".data "<S>".data "old".data "<E>".data
    "B".data "new".data (by decide) (by decide)

/-- Claim C8: when the start marker occurs and the end marker occurs at
or after it, Remove deletes the substring from the start of the start
marker through the end of the end marker and concatenates the
surrounding parts directly, with no separator; when either marker is
absent the content is returned unchanged. -/
theorem remove_block_semantics (s e : Str) :
    (∀ A M B, strIndex (A ++ s ++ M ++ e ++ B) s = some A.length →
       strIndex (s ++ M ++ e ++ B) e = some (s.length + M.length) →
       removeBetweenMarkers (A ++ s ++ M ++ e ++ B) s e = A ++ B)
    ∧ (∀ content, strIndex content s = none →
       removeBetweenMarkers content s e = content)
    ∧ (∀ content i, strIndex content s = some i →
       strIndex (content.drop i) e = none →
       removeBetweenMarkers content s e = content) := by
  refine ⟨?_, ?_, ?_⟩
  · intro A M B h1 h2
    have hc : A ++ s ++ M ++ e ++ B = A ++ (s ++ M ++ e ++ B) := by
      simp [List.append_assoc]
    have hdropA : (A ++ s ++ M ++ e ++ B).drop A.length = s ++ M ++ e ++ B := by
      rw [hc]; exact List.drop_left A (s ++ M ++ e ++ B)
    have htakeA : (A ++ s ++ M ++ e ++ B).take A.length = A := by
      rw [hc]; exact List.take_left A (s ++ M ++ e ++ B)
    have hsplit : A ++ s ++ M ++ e ++ B = (A ++ s ++ M ++ e) ++ B := by
      simp [List.append_assoc]
    have hlen : (A ++ s ++ M ++ e).length
        = s.length + M.length + A.length + e.length := by
      simp [List.length_append]; omega
    have hdropEnd :
        (A ++ s ++ M ++ e ++ B).drop
          (s.length + M.length + A.length + e.length) = B := by
      rw [hsplit]; exact List.drop_left' hlen
    simp only [removeBetweenMarkers, h1, hdropA, h2]
    rw [htakeA, hdropEnd]
  · intro content h
    simp only [removeBetweenMarkers, h]
  · intro content i h1 h2
    simp only [removeBetweenMarkers, h1, h2]

/-- Witness for C8 at concrete inputs: one well-formed block removed,
one content without the start marker, one with an orphaned start
marker. -/
theorem remove_block_semantics_witness :
    removeBetweenMarkers
        ("A".data ++ "<S>".data ++ "M".data ++ "<E>".data ++ "B".data)
        "<S>".data "<E>".data = "A".data ++ "B".data
    ∧ removeBetweenMarkers "x".data "<S>".data "<E>".data = "x".data
    ∧ removeBetweenMarkers "<S>x".data "<S>".data "<E>".data = "<S>x".data := by
  refine ⟨?_, ?_, ?_⟩
  · exact (remove_block_semantics "<S>".data "<E>".data).1 "A".data "M".data
      "B".data (by decide) (by decide)
  · exact (remove_block_semantics "<S>".data "<E>".data).2.1 "x".data (by decide)
  · exact (remove_block_semantics "<S>".data "<E>".data).2.2 "<S>x".data 0
      (by decide) (by decide)

/-- Claim C3 refutation at the failing input: extracting from a content
that consists of a single well-formed managed block (the real `gws`
markers around a one-line body) runs the extraction slice past the end
of the content — a runtime panic in Go, modelled as `none`.  The upper
slice bound is computed as `endRel + startIdx + len(startMarker)`,
which exceeds the content length whenever the text after the extracted
region is shorter than the start marker. -/
theorem extract_panics_on_minimal_managed_block :
    ExtractBetweenMarkers
        (StartMarker "w".data ++ "\nHost x\n".data ++ EndMarker "w".data)
        (StartMarker "w".data) (EndMarker "w".data) = none := by
  decide

/-- Claim C4 refutation at the failing input: for
`content = s ++ "  " ++ T ++ "  " ++ e ++ B` with `s = "<<S>>"`,
`T = "T"`, `e = "<E>"`, `B = "xyzzy"`, the code returns the trimmed
slice `"T  <E>xy"` — which still contains the end marker and two
characters of `B` — rather than `trim(T) = "T"` as the claim states. -/
theorem extract_includes_marker_garbage :
    ExtractBetweenMarkers "<<S>>  T  <E>xyzzy".data "<<S>>".data "<E>".data
      = some ("T  <E>xy".data, true)
    ∧ trimSpace "  T  ".data = "T".data
    ∧ ("T  <E>xy".data : Str) ≠ "T".data := by
  decide

/-! ### The global gitconfig includeIf block (root.go lines 259-312) -/

/-- Embeds the block construction of `updateGlobalGitConfig` (root.go
lines 298-301): the rendered managed block contains exactly one
`includeIf` stanza, built from the one workspace being added or
updated. -/
def buildIncludeIfBlock (condition wsGitConfigPath : Str) : Str :=
  IncludeIfStartMarker ++ "\n[includeIf \"".data ++ condition
    ++ "\"]\n  path = ".data ++ wsGitConfigPath ++ '\n' :: IncludeIfEndMarker

/-- Embeds the content transformation of `updateGlobalGitConfig`
(root.go lines 294-304): the new global gitconfig content computed from
the old content, replacing the single shared managed block with the
freshly rendered one-stanza block. -/
def updateGlobalGitConfigContent (content condition wsGitConfigPath : Str) :
    Str :=
  (ReplaceBetweenMarkers content IncludeIfStartMarker IncludeIfEndMarker
    (buildIncludeIfBlock condition wsGitConfigPath)).1

/-- The per-workspace gitconfig path of a demo workspace `alpha`. -/
def alphaStanzaPath : Str := "/home/u/.gws/gitconfig/alpha".data

/-- The per-workspace gitconfig path of a demo workspace `beta`. -/
def betaStanzaPath : Str := "/home/u/.gws/gitconfig/beta".data

/-- The global gitconfig content after registering workspace `alpha`
starting from an empty file. -/
def gitconfigAfterAlpha : Str :=
  updateGlobalGitConfigContent [] "gitdir:/home/u/code/alpha/".data
    alphaStanzaPath

/-- The global gitconfig content after then registering workspace
`beta`. -/
def gitconfigAfterBeta : Str :=
  updateGlobalGitConfigContent gitconfigAfterAlpha
    "gitdir:/home/u/code/beta/".data betaStanzaPath

set_option maxRecDepth 40000 in
/-- Claim C1 refutation at the failing input: after workspace `alpha`
is registered, registering workspace `beta` rewrites the single shared
managed block to contain only the `beta` stanza — the `alpha` stanza
path no longer occurs anywhere in the resulting content, although the
claim requires the regenerated block to contain one stanza per
registered workspace. -/
theorem updateGlobalGitConfig_single_stanza_bug :
    containsSub gitconfigAfterAlpha alphaStanzaPath = true
    ∧ containsSub gitconfigAfterBeta betaStanzaPath = true
    ∧ containsSub gitconfigAfterBeta alphaStanzaPath = false := by
  decide

/-! ### The Atomic Persistence Layer (part_000 lines 12-66)

Filesystem state is a map from path to optional content; `none` means
the path does not exist.  In-model reads and writes of existing files
succeed; the I/O failures the claims speak about are injected
explicitly where a claim needs them. -/

/-- A filesystem: each path maps to the content of the file there, or
`none` when no file exists at that path. -/
abbrev FS := Str → Option Str

/-- Writing a file: creates or truncates-and-replaces the file at `p`. -/
def fsWrite (fs : FS) (p : Str) (data : Str) : FS :=
  fun q => if q = p then some data else fs q

/-- Removing a file (`os.Remove`); removing a non-existent path leaves
the map unchanged, matching the ignored error of the deferred remove. -/
def fsRemove (fs : FS) (p : Str) : FS :=
  fun q => if q = p then none else fs q

/-- A Go `time.Time` reduced to the calendar fields the backup
timestamp uses. -/
structure GoTime where
  year : Nat
  month : Nat
  day : Nat
  hour : Nat
  minute : Nat
  second : Nat

/-- The two-digit zero-padded decimal rendering of `n % 100`, as
produced by the `01`, `02`, `15`, `04`, `05` components of a Go time
layout for in-range values. -/
def twoDigits (n : Nat) : Str :=
  [Nat.digitChar (n / 10 % 10), Nat.digitChar (n % 10)]

/-- The four-digit zero-padded decimal rendering of `n % 10000`, as
produced by the `2006` component of a Go time layout for years below
ten thousand. -/
def fourDigits (n : Nat) : Str := twoDigits (n / 100) ++ twoDigits n

/-- Embeds Go `time.Now().Format("20060102150405")` (part_000 line 52)
for in-range time components: the fixed-width `YYYYMMDDHHMMSS`
second-resolution timestamp. -/
def formatTimestamp (t : GoTime) : Str :=
  fourDigits t.year ++ twoDigits t.month ++ twoDigits t.day
    ++ twoDigits t.hour ++ twoDigits t.minute ++ twoDigits t.second

/-- The backup destination `path + ".bak." + timestamp` (part_000 line
53). -/
def backupPath (now : GoTime) (path : Str) : Str :=
  path ++ ".bak.".data ++ formatTimestamp now

/-- Embeds `fsutil.CreateBackup` (part_000 lines 47-66).  The in-model
`os.ReadFile` of the existing file and `os.WriteFile` of the backup
always succeed; their Go error branches are unreachable in the model. -/
def CreateBackup (fs : FS) (now : GoTime) (path : Str) : Except Str FS :=
  match fs path with
  | none => .ok fs
  | some data => .ok (fsWrite fs (backupPath now path) data)

/-- Failure injection for one `AtomicWrite` attempt: which of the five
steps fails. -/
structure WriteOracle where
  failCreate : Bool
  failWrite : Bool
  failChmod : Bool
  failClose : Bool
  failRename : Bool

/-- The temporary file name `os.CreateTemp(dir, base + ".tmp")`
produces: the target path with `".tmp"` and a fresh random suffix
appended (part_000 line 15). -/
def tmpName (path suffix : Str) : Str := path ++ ".tmp".data ++ suffix

/-- Embeds `fsutil.AtomicWrite` (part_000 lines 12-44): create a
temporary file in the same directory, write the data, set permissions,
close, then rename onto `path`; the deferred `os.Remove` of the
temporary file runs on every exit path after creation.  Permission
bits are not tracked beyond the possibility of the `Chmod` step
failing.  Returns the command outcome and the resulting filesystem. -/
def AtomicWrite (fs : FS) (o : WriteOracle) (path suffix data : Str) :
    Except Str Unit × FS :=
  let tmp := tmpName path suffix
  if o.failCreate then (.error "failed to create temp file".data, fs)
  else
    let fs1 := fsWrite fs tmp []
    if o.failWrite then
      (.error "failed to write to temp file".data, fsRemove fs1 tmp)
    else
      let fs2 := fsWrite fs1 tmp data
      if o.failChmod then
        (.error "failed to set temp file permissions".data, fsRemove fs2 tmp)
      else if o.failClose then
        (.error "failed to close temp file".data, fsRemove fs2 tmp)
      else if o.failRename then
        (.error "failed to rename temp file".data, fsRemove fs2 tmp)
      else
        (.ok (), fsRemove (fsWrite (fsRemove fs2 tmp) path data) tmp)

/-- The temporary path never collides with the target path. -/
theorem tmpName_ne (path suffix : Str) : tmpName path suffix ≠ path := by
  intro hEq
  have hl := congrArg List.length hEq
  have h4 : (".tmp".data : Str).length = 4 := by decide
  simp only [tmpName, List.length_append, h4] at hl
  omega

/-- Claim C6: if the temp-file creation, write, permission-set or close
step fails, `AtomicWrite` returns the error, the content (or absence)
of `path` is unchanged, and the temporary file does not survive; when
every step succeeds, the file at `path` contains exactly the written
data and the temporary path no longer exists. -/
theorem atomicWrite_failure_atomicity (fs : FS) (o : WriteOracle)
    (path suffix data : Str) (hfresh : fs (tmpName path suffix) = none) :
    ((o.failCreate || o.failWrite || o.failChmod || o.failClose) = true →
      (∃ msg, (AtomicWrite fs o path suffix data).1 = .error msg)
      ∧ (AtomicWrite fs o path suffix data).2 path = fs path
      ∧ (AtomicWrite fs o path suffix data).2 (tmpName path suffix) = none)
    ∧ ((o.failCreate || o.failWrite || o.failChmod || o.failClose
          || o.failRename) = false →
      (AtomicWrite fs o path suffix data).1 = .ok ()
      ∧ (AtomicWrite fs o path suffix data).2 path = some data
      ∧ (AtomicWrite fs o path suffix data).2 (tmpName path suffix) = none) := by
  have htmp : tmpName path suffix ≠ path := tmpName_ne path suffix
  have htmp2 : path ≠ tmpName path suffix := Ne.symm htmp
  obtain ⟨fc, fw, fch, fcl, fr⟩ := o
  constructor
  · intro h
    cases fc <;> cases fw <;> cases fch <;> cases fcl <;>
      simp_all [AtomicWrite, fsWrite, fsRemove, htmp2]
  · intro h
    cases fc <;> cases fw <;> cases fch <;> cases fcl <;> cases fr <;>
      simp_all [AtomicWrite, fsWrite, fsRemove, htmp2]

/-- Witness for C6: a failing write leaves an absent target absent and
no temp file; a fully successful attempt installs the data. -/
theorem atomicWrite_failure_atomicity_witness :
    (AtomicWrite (fun _ => none) ⟨false, true, false, false, false⟩
        "/p".data "123".data "d".data).2 "/p".data = none
    ∧ (AtomicWrite (fun _ => none) ⟨false, true, false, false, false⟩
        "/p".data "123".data "d".data).2 (tmpName "/p".data "123".data) = none
    ∧ (AtomicWrite (fun _ => none) ⟨false, false, false, false, false⟩
        "/p".data "123".data "d".data).1 = .ok ()
    ∧ (AtomicWrite (fun _ => none) ⟨false, false, false, false, false⟩
        "/p".data "123".data "d".data).2 "/p".data = some "d".data := by
  have h1 := (atomicWrite_failure_atomicity (fun _ => none)
    ⟨false, true, false, false, false⟩ "/p".data "123".data "d".data rfl).1
    (by decide)
  have h2 := (atomicWrite_failure_atomicity (fun _ => none)
    ⟨false, false, false, false, false⟩ "/p".data "123".data "d".data rfl).2
    (by decide)
  exact ⟨h1.2.1, h1.2.2, h2.1, h2.2.1⟩

/-- A decimal digit character is a digit. -/
theorem digitChar_mod_isDigit (n : Nat) :
    (Nat.digitChar (n % 10)).isDigit = true := by
  have hk : n % 10 < 10 := Nat.mod_lt _ (by decide)
  set k := n % 10 with hkdef
  interval_cases k <;> decide

/-- The backup destination differs from the source path. -/
theorem backupPath_ne (now : GoTime) (path : Str) :
    backupPath now path ≠ path := by
  intro hEq
  have hl := congrArg List.length hEq
  have h5 : (".bak.".data : Str).length = 5 := by decide
  have h14 : (formatTimestamp now).length = 14 := by
    simp [formatTimestamp, fourDigits, twoDigits]
  simp only [backupPath, List.length_append, h5, h14] at hl
  omega

/-- Claim C9: when the file at `path` exists, `CreateBackup` succeeds,
writing exactly one file, at `path ++ ".bak." ++ timestamp` with the
fixed-width 14-digit `YYYYMMDDHHMMSS` timestamp, whose content equals
the pre-call content of `path`; `path` itself and every other path are
unchanged.  When no file exists at `path`, the filesystem is returned
unchanged and the call succeeds. -/
theorem createBackup_behaviour (fs : FS) (now : GoTime) (path : Str) :
    ((formatTimestamp now).length = 14
      ∧ (formatTimestamp now).all Char.isDigit = true)
    ∧ (fs path = none → CreateBackup fs now path = .ok fs)
    ∧ (∀ data, fs path = some data →
        CreateBackup fs now path = .ok (fsWrite fs (backupPath now path) data)
        ∧ fsWrite fs (backupPath now path) data (backupPath now path)
            = some data
        ∧ fsWrite fs (backupPath now path) data path = fs path
        ∧ (∀ q, q ≠ backupPath now path →
            fsWrite fs (backupPath now path) data q = fs q)) := by
  refine ⟨⟨?_, ?_⟩, ?_, ?_⟩
  · simp [formatTimestamp, fourDigits, twoDigits]
  · simp [formatTimestamp, fourDigits, twoDigits, List.all_append,
      digitChar_mod_isDigit]
  · intro h
    simp only [CreateBackup, h]
  · intro data h
    have hne : path ≠ backupPath now path := Ne.symm (backupPath_ne now path)
    refine ⟨by simp only [CreateBackup, h], by simp [fsWrite], ?_, ?_⟩
    · simp [fsWrite, hne, h]
    · intro q hq
      simp [fsWrite, hq]

/-- Witness for C9: backing up a one-file filesystem copies the content
to the timestamped sibling and leaves the original untouched; backing
up a missing path is a no-op. -/
theorem createBackup_behaviour_witness :
    CreateBackup (fun q => if q = "/f".data then some "c".data else none)
        ⟨2026, 10, 11, 1, 2, 3⟩ "/f".data
      = .ok (fsWrite (fun q => if q = "/f".data then some "c".data else none)
          (backupPath ⟨2026, 10, 11, 1, 2, 3⟩ "/f".data) "c".data)
    ∧ fsWrite (fun q => if q = "/f".data then some "c".data else none)
        (backupPath ⟨2026, 10, 11, 1, 2, 3⟩ "/f".data) "c".data "/f".data
      = some "c".data
    ∧ CreateBackup (fun _ => none) ⟨2026, 10, 11, 1, 2, 3⟩ "/f".data
      = .ok (fun _ => none)
    ∧ (formatTimestamp ⟨2026, 10, 11, 1, 2, 3⟩).length = 14 := by
  have h1 := (createBackup_behaviour
    (fun q => if q = "/f".data then some "c".data else none)
    ⟨2026, 10, 11, 1, 2, 3⟩ "/f".data).2.2 "c".data (by simp)
  have h2 := (createBackup_behaviour (fun _ => none)
    ⟨2026, 10, 11, 1, 2, 3⟩ "/f".data).2.1 rfl
  have h3 := (createBackup_behaviour (fun _ => none)
    ⟨2026, 10, 11, 1, 2, 3⟩ "/f".data).1.1
  exact ⟨h1.1, h1.2.2.1, h2, h3⟩

end Gitws
